import Mathlib

/-!
Shallow embedding of the NeetSync submission sync pipeline
(src/background/types.ts, normalize.ts, storage.ts, queue.ts), with
theorems checking the specification claims about deduplication, retry
backoff, the processing pass, catalog merging and path construction.

Conventions of the embedding:
* JavaScript strings are `String`, optional values are `Option`,
  timestamps (`Date.now()` results) are `Int` milliseconds.
* JavaScript truthiness of an optional string (`undefined` and the empty
  string are falsy) is `isTruthy`; `a || b` on such values is `jsOr`.
* `chrome.storage` is a record `SyncState`; each storage helper from
  storage.ts becomes a pure function on the relevant component.
* The external Web Crypto digest wrapped by normalize.ts `sha256` is a
  parameter `sha256 : String → String` of every operation that hashes;
  theorems hold for an arbitrary digest function, and closed evaluations
  instantiate it with the stand-in `sha256Stub`.
* The network commit `commitSolutionFile` (github.ts) catches its own
  errors and reports `success : Bool`; a processing pass observes only
  that outcome, so an attempt is an oracle `commit : QueueItem → Except
  String Bool` (`Except.error` models a thrown exception, which the pass
  catches exactly like `success = false`).  The ids of attempted items
  are recorded in the `attempted` trace of `SyncState`.
-/

namespace NeetSync

/-- JavaScript truthiness of an optional string: `undefined` (here `none`)
and the empty string are falsy. -/
def isTruthy : Option String → Bool
  | none => false
  | some s => !(s == "")

/-- JavaScript `a || b` on optional strings. -/
def jsOr (a b : Option String) : Option String :=
  if isTruthy a then a else b

/-- JavaScript `a || b` on plain strings (only `""` is falsy). -/
def jsOrStr (a b : String) : String :=
  if a == "" then b else a

/-- Membership characters of the JavaScript regex class `\s`
(ASCII part: space, tab, newline, carriage return, vertical tab, form feed). -/
def isJsSpace (c : Char) : Bool :=
  c == ' ' || c == '\t' || c == '\n' || c == '\r' || c == '\x0b' || c == '\x0c'

/-- JavaScript `String.prototype.trim`: drop whitespace on both ends. -/
def jsTrimList (l : List Char) : List Char :=
  ((l.dropWhile isJsSpace).reverse.dropWhile isJsSpace).reverse

/-- JavaScript `String.prototype.trim` on a string. -/
def jsTrim (s : String) : String :=
  String.mk (jsTrimList s.data)

/-- `String.prototype.toLowerCase` (ASCII letters; the lookup keys and
literals in the source are ASCII). -/
def lowerStr (s : String) : String :=
  String.mk (s.data.map Char.toLower)

/-- First-match association lookup, the behavior of a JavaScript object
index `obj[key]` for our object models. -/
def lookupAssoc {α : Type} (l : List (String × α)) (k : String) : Option α :=
  match l with
  | [] => none
  | (k', v) :: rest => if k' = k then some v else lookupAssoc rest k

/-- Assignment `obj[key] = v` on a JavaScript object: replace the value at
an existing key (keeping its position), otherwise append the key. -/
def setAssoc {α : Type} (k : String) (v : α) : List (String × α) → List (String × α)
  | [] => [(k, v)]
  | (k', v') :: rest => if k' = k then (k, v) :: rest else (k', v') :: setAssoc k v rest

/-- `[...new Set(l)]`: deduplicate keeping the first occurrence of each
element, in order. -/
def dedupFirst (l : List String) : List String :=
  l.foldl (fun acc x => if x ∈ acc then acc else acc ++ [x]) []

/-- `Array.prototype.join(sep)`. -/
def joinSep (sep : String) : List String → String
  | [] => ""
  | [p] => p
  | p :: rest => p ++ sep ++ joinSep sep rest

/-- `String.prototype.split(sep)` for a one-character separator, on the
character list. -/
def splitOnChar (sep : Char) : List Char → List (List Char)
  | [] => [[]]
  | c :: rest =>
    let r := splitOnChar sep rest
    if c = sep then [] :: r
    else
      match r with
      | [] => [[c]]
      | w :: ws => (c :: w) :: ws

/-- List-of-characters test used to model `String.prototype.includes`:
does the first list occur at the head of the second. -/
def isPrefixOfChars : List Char → List Char → Bool
  | [], _ => true
  | _ :: _, [] => false
  | a :: as, b :: bs => a == b && isPrefixOfChars as bs

/-- `String.prototype.includes`: does `needle` occur somewhere in the
second list. -/
def containsSub (needle : List Char) : List Char → Bool
  | [] => isPrefixOfChars needle []
  | b :: rest => isPrefixOfChars needle (b :: rest) || containsSub needle rest

/-! ## types.ts -/

/-- types.ts `OrganizationMode`. -/
inductive OrganizationMode : Type
  | AUTO
  | DIFFICULTY
  | FLAT
  | CATEGORY
deriving DecidableEq, Repr

/-- types.ts `Settings`. -/
structure Settings : Type where
  repoFullName : String
  branch : String
  baseDir : String
  organizationMode : OrganizationMode
  overwrite : Bool
  includeHeader : Bool
  includeDifficultyFolder : Bool
  includeListFolderWhenKnown : Bool
  filenameIncludeSlug : Bool
  debugMode : Bool
deriving DecidableEq, Repr

/-- types.ts `DEFAULT_SETTINGS`. -/
def DEFAULT_SETTINGS : Settings :=
  { repoFullName := ""
    branch := "main"
    baseDir := "NeetSync"
    organizationMode := .AUTO
    overwrite := true
    includeHeader := true
    includeDifficultyFolder := false
    includeListFolderWhenKnown := true
    filenameIncludeSlug := false
    debugMode := false }

/-- types.ts `MappingEntry`. -/
structure MappingEntry : Type where
  title : Option String
  category : Option String
  listName : Option String
  difficulty : Option String
  sources : Option (List String)
deriving DecidableEq, Repr

/-- The empty object `{}` used for a missing mapping entry. -/
def emptyMappingEntry : MappingEntry :=
  { title := none, category := none, listName := none, difficulty := none, sources := none }

/-- types.ts `SolvedEntry`. -/
structure SolvedEntry : Type where
  title : String
  category : Option String
  listName : Option String
  difficulty : Option String
  language : String
  solvedAt : Int
  sha256 : Option String
deriving DecidableEq, Repr

/-- Submission capture method tag. -/
inductive Source : Type
  | dom
  | intercept
deriving DecidableEq, Repr

/-- Runtime and memory strings attached to a submission. -/
structure Meta : Type where
  runtime : Option String
  memory : Option String
deriving DecidableEq, Repr

/-- types.ts `QueueItem`.  The timestamp field `at` is a Lean keyword and
is renamed `atMs`. -/
structure QueueItem : Type where
  id : String
  slug : String
  title : String
  category : Option String
  listName : Option String
  difficulty : Option String
  language : String
  code : String
  meta : Option Meta
  source : Source
  atMs : Int
  retries : Nat
  lastAttempt : Option Int
deriving DecidableEq, Repr

/-- Log severity levels of logger.ts. -/
inductive LogLevel : Type
  | info
  | warn
  | error
  | success
deriving DecidableEq, Repr

/-- logger.ts `LogEntry`, reduced to the deterministic components (the
random id, timestamp and optional details are not modelled). -/
structure LogEntry : Type where
  level : LogLevel
  message : String
deriving DecidableEq, Repr

/-- logger.ts `addLog`: prepend the new entry and keep the newest
`MAX_LOGS = 100` entries. -/
def addLog (level : LogLevel) (message : String) (logs : List LogEntry) : List LogEntry :=
  (⟨level, message⟩ :: logs).take 100

/-- types.ts `LANGUAGE_EXTENSIONS`. -/
def LANGUAGE_EXTENSIONS : List (String × String) :=
  [("python", "py"), ("python3", "py"), ("javascript", "js"), ("typescript", "ts"),
   ("java", "java"), ("cpp", "cpp"), ("c++", "cpp"), ("c", "c"), ("csharp", "cs"),
   ("c#", "cs"), ("go", "go"), ("golang", "go"), ("rust", "rs"), ("swift", "swift"),
   ("kotlin", "kt"), ("scala", "scala"), ("ruby", "rb"), ("php", "php"),
   ("dart", "dart"), ("racket", "rkt"), ("elixir", "ex"), ("erlang", "erl")]

/-- types.ts `getExtension`: lower-case and trim the language, look it up,
default to the generic extension `txt`. -/
def getExtension (language : String) : String :=
  (lookupAssoc LANGUAGE_EXTENSIONS (jsTrim (lowerStr language))).getD "txt"

/-! ## normalize.ts -/

/-- The characters removed by the first sanitize step
(the regex class `[<>:"/\\|?*]`). -/
def badChars : List Char := ['<', '>', ':', '"', '/', '\\', '|', '?', '*']

/-- One `replace(/X+/g, r)` pass: every maximal run of characters matching
`p` is replaced by the single character `r`.  The boolean argument tracks
whether the previous character was inside a run. -/
def replaceRuns (p : Char → Bool) (r : Char) : Bool → List Char → List Char
  | _, [] => []
  | inRun, c :: cs =>
    if p c then
      if inRun then replaceRuns p r true cs
      else r :: replaceRuns p r true cs
    else c :: replaceRuns p r false cs

/-- Removal of one leading underscore (the `^_` alternative of the
edge-trimming regex). -/
def dropLeadUnderscore (l : List Char) : List Char :=
  match l with
  | c :: rest => if c = '_' then rest else l
  | [] => l

/-- The `replace(/^_|_$/g, "")` step: remove one leading and one trailing
underscore when present. -/
def trimEdgeUnderscores (l : List Char) : List Char :=
  let l1 := dropLeadUnderscore l
  if l1.getLast? = some '_' then l1.dropLast else l1

/-- normalize.ts `sanitize`: remove invalid filename characters, replace
whitespace runs with underscores, collapse underscore runs, trim edge
underscores, and truncate to 100 characters. -/
def sanitize (s : String) : String :=
  let step1 := s.data.filter (fun c => !(badChars.contains c))
  let step2 := replaceRuns isJsSpace '_' false step1
  let step3 := replaceRuns (fun c => c == '_') '_' false step2
  let step4 := trimEdgeUnderscores step3
  String.mk (step4.take 100)

/-- `word.charAt(0).toUpperCase() + word.slice(1)`. -/
def capitalizeWord : List Char → String
  | [] => ""
  | c :: rest => String.mk (c.toUpper :: rest)

/-- normalize.ts `slugToTitle`: split on dashes, capitalize each word,
join with spaces. -/
def slugToTitle (slug : String) : String :=
  joinSep " " ((splitOnChar '-' slug.data).map capitalizeWord)

/-- `category.replace(/&/g, "And")`. -/
def replaceAmp (s : String) : String :=
  String.mk (s.data.flatMap (fun c => if c = '&' then ['A', 'n', 'd'] else [c]))

/-- normalize.ts `normalizeCategory`. -/
def normalizeCategory (category : String) : String :=
  sanitize (jsTrim (replaceAmp category))

/-- normalize.ts `normalizeListName`. -/
def normalizeListName (listName : String) : String :=
  sanitize (jsTrim (replaceAmp listName))

/-- normalize.ts `normalizeDifficulty`: falsy input gives `undefined`,
otherwise match Easy, Medium or Hard as a lower-case substring. -/
def normalizeDifficulty (difficulty : Option String) : Option String :=
  if !(isTruthy difficulty) then none
  else
    let lower := jsTrim (lowerStr (difficulty.getD ""))
    if containsSub "easy".data lower.data then some "Easy"
    else if containsSub "medium".data lower.data then some "Medium"
    else if containsSub "hard".data lower.data then some "Hard"
    else none

/-- normalize.ts `buildFilePath`: choose directory segments by
organization mode, then append the filename built from the sanitized
title (or the title-cased slug), optionally prefixed with the slug. -/
def buildFilePath (settings : Settings) (slug title language : String)
    (mappingEntry : Option MappingEntry) (difficulty : Option String) : String :=
  let category := mappingEntry.bind (fun m => m.category)
  let listName := mappingEntry.bind (fun m => m.listName)
  let difficultyNorm := normalizeDifficulty (jsOr difficulty (mappingEntry.bind (fun m => m.difficulty)))
  let dirs : List String :=
    match settings.organizationMode with
    | .AUTO =>
      (if settings.includeListFolderWhenKnown && isTruthy listName then
        [normalizeListName (listName.getD "")]
       else ["Problems"])
      ++ (if settings.includeDifficultyFolder && isTruthy difficultyNorm then
            [difficultyNorm.getD ""]
          else [])
      ++ (if isTruthy category then [normalizeCategory (category.getD "")] else ["Unsorted"])
    | .CATEGORY =>
      ["Problems"]
      ++ (if isTruthy category then [normalizeCategory (category.getD "")] else ["Unsorted"])
    | .DIFFICULTY =>
      ["Problems", (jsOr difficultyNorm (some "Unknown_Difficulty")).getD ""]
    | .FLAT => ["Problems"]
  let ext := getExtension language
  let sanitizedTitle := sanitize (jsOrStr title (slugToTitle slug))
  let filename :=
    if settings.filenameIncludeSlug then slug ++ "__" ++ sanitizedTitle ++ "." ++ ext
    else sanitizedTitle ++ "." ++ ext
  joinSep "/" (settings.baseDir :: dirs ++ [filename])

/-! ## storage.ts and queue.ts -/

/-- The persistent extension state: the keys of the durable store
(storage.ts), the single-flight flag of queue.ts, the log ring buffer,
and an instrumentation trace `attempted` recording the ids of queue items
for which a remote commit attempt was started. -/
structure SyncState : Type where
  settings : Settings
  token : Option String
  mapping : List (String × MappingEntry)
  solved : List (String × SolvedEntry)
  queue : List QueueItem
  lastSync : Option Int
  logs : List LogEntry
  isProcessing : Bool
  attempted : List String
deriving DecidableEq, Repr

/-- queue.ts `MAX_RETRIES`. -/
def MAX_RETRIES : Nat := 5

/-- queue.ts `BASE_DELAY` (one second). -/
def BASE_DELAY : Nat := 1000

/-- queue.ts `MAX_DELAY` (one minute). -/
def MAX_DELAY : Nat := 60000

/-- queue.ts `getBackoffDelay`: exponential backoff capped at one minute. -/
def getBackoffDelay (retries : Nat) : Nat :=
  min (BASE_DELAY * 2 ^ retries) MAX_DELAY

/-- storage.ts `removeFromQueue`: keep the items whose id differs. -/
def removeFromQueue (id : String) (queue : List QueueItem) : List QueueItem :=
  queue.filter (fun item => item.id != id)

/-- storage.ts `updateQueueItem`: find the first item with the given id
and merge the updates into it; absent ids leave the queue unchanged. -/
def updateQueueItem (id : String) (upd : QueueItem → QueueItem) :
    List QueueItem → List QueueItem
  | [] => []
  | q :: rest =>
    if q.id = id then upd q :: rest else q :: updateQueueItem id upd rest

/-- The backoff eligibility test of queue.ts `processQueue` (the skip at
the head of the loop): an item is attempted unless it has a recorded
`lastAttempt`, a positive retry count, and the time since the last
attempt is below the backoff delay for `retries - 1`. -/
def shouldAttempt (item : QueueItem) (now : Int) : Bool :=
  match item.lastAttempt with
  | none => true
  | some t =>
    if 0 < item.retries then decide ((getBackoffDelay (item.retries - 1) : Int) ≤ now - t)
    else true

/-- Loop counters of a processing pass. -/
structure PassAcc : Type where
  st : SyncState
  processed : Nat
  errors : Nat
deriving Repr

/-- The body of the queue.ts `processQueue` loop for one snapshot item:
skip it when the backoff says so, otherwise attempt the commit; on
success record the solved entry and remove the item, on failure either
drop it (retry ceiling reached) or increment its retry bookkeeping. -/
def passStep (sha256 : String → String) (commit : QueueItem → Except String Bool)
    (now : Int) (mapping : List (String × MappingEntry))
    (acc : PassAcc) (item : QueueItem) : PassAcc :=
  if !(shouldAttempt item now) then acc
  else
    let st := { acc.st with attempted := acc.st.attempted ++ [item.id] }
    match commit item with
    | .ok true =>
      let codeHash := sha256 (item.slug ++ item.language ++ item.code)
      let entry : SolvedEntry :=
        { title := item.title
          category := jsOr item.category ((lookupAssoc mapping item.slug).bind (fun m => m.category))
          listName := jsOr item.listName ((lookupAssoc mapping item.slug).bind (fun m => m.listName))
          difficulty := jsOr item.difficulty ((lookupAssoc mapping item.slug).bind (fun m => m.difficulty))
          language := item.language
          solvedAt := item.atMs
          sha256 := some codeHash }
      let st := { st with solved := setAssoc item.slug entry st.solved }
      let st := { st with queue := removeFromQueue item.id st.queue }
      { st := st, processed := acc.processed + 1, errors := acc.errors }
    | _ =>
      if item.retries ≥ MAX_RETRIES then
        let st := { st with
          logs := addLog .error ("Max retries reached for " ++ item.title ++ ", removing from queue") st.logs }
        let st := { st with queue := removeFromQueue item.id st.queue }
        { st := st, processed := acc.processed, errors := acc.errors + 1 }
      else
        let st := { st with
          queue := updateQueueItem item.id
            (fun q => { q with retries := item.retries + 1, lastAttempt := some now }) st.queue }
        let st := { st with
          logs := addLog .warn
            ("Retry " ++ toString (item.retries + 1) ++ "/" ++ toString MAX_RETRIES ++ " for " ++ item.title)
            st.logs }
        { st := st, processed := acc.processed, errors := acc.errors }

/-- The queue.ts `processQueue` loop over the queue snapshot. -/
def passLoop (sha256 : String → String) (commit : QueueItem → Except String Bool)
    (now : Int) (mapping : List (String × MappingEntry)) :
    List QueueItem → PassAcc → PassAcc
  | [], acc => acc
  | item :: rest, acc =>
    passLoop sha256 commit now mapping rest (passStep sha256 commit now mapping acc item)

/-- queue.ts `processQueue`.  `Date.now()` during the pass is the
parameter `now`.  The progress-file sync after a successful batch is an
external network effect whose outcome the pass does not read, so it is
not part of the state; the subsequent `setLastSync(Date.now())` is. -/
def processQueue (sha256 : String → String) (commit : QueueItem → Except String Bool)
    (now : Int) (st : SyncState) : SyncState :=
  if st.isProcessing then
    { st with logs := addLog .info "Queue processing already in progress" st.logs }
  else
    let st := { st with isProcessing := true }
    let queue := st.queue
    if queue.isEmpty then { st with isProcessing := false }
    else if !(isTruthy st.token) || st.settings.repoFullName == "" then
      { st with
        logs := addLog .warn "GitHub not configured, skipping queue processing" st.logs
        isProcessing := false }
    else
      let st := { st with
        logs := addLog .info ("Processing " ++ toString queue.length ++ " queued items") st.logs }
      let acc := passLoop sha256 commit now st.mapping queue { st := st, processed := 0, errors := 0 }
      let st := acc.st
      let st :=
        if 0 < acc.processed then
          { st with
            lastSync := some now
            logs := addLog .success
              ("Queue processed: " ++ toString acc.processed ++ " synced, " ++ toString acc.errors ++ " failed")
              st.logs }
        else st
      { st with isProcessing := false }

/-- queue.ts `enqueueSubmission`.  `Date.now()` is the parameter `now`
and the random id of the new item is the parameter `newId`.  The
`saveQueue` at the end persists the locally captured `queue` array, which
was read before `removeFromQueue` ran; the asynchronous processing kick
(`setTimeout`) is not part of the state transition. -/
def enqueueSubmission (sha256 : String → String) (st : SyncState)
    (slug title code language : String)
    (category listName difficulty : Option String) (meta : Option Meta)
    (source : Source) (now : Int) (newId : String) : SyncState × Bool :=
  let codeHash := sha256 (slug ++ language ++ code)
  let dupSolved :=
    match lookupAssoc st.solved slug with
    | some existingSolved =>
      existingSolved.sha256 == some codeHash && decide (now - existingSolved.solvedAt < 60000)
    | none => false
  if dupSolved then
    ({ st with logs := addLog .info ("Duplicate submission ignored: " ++ title) st.logs }, false)
  else
    let queue := st.queue
    let newItem : QueueItem :=
      { id := newId
        slug := slug
        title := jsOrStr title (slugToTitle slug)
        category := jsOr category ((lookupAssoc st.mapping slug).bind (fun m => m.category))
        listName := jsOr listName ((lookupAssoc st.mapping slug).bind (fun m => m.listName))
        difficulty := jsOr difficulty ((lookupAssoc st.mapping slug).bind (fun m => m.difficulty))
        language := language
        code := code
        meta := meta
        source := source
        atMs := now
        retries := 0
        lastAttempt := none }
    match queue.find? (fun item => item.slug == slug && item.language == language) with
    | some existingInQueue =>
      let existingHash :=
        sha256 (existingInQueue.slug ++ existingInQueue.language ++ existingInQueue.code)
      if existingHash = codeHash then
        ({ st with logs := addLog .info ("Already queued: " ++ title) st.logs }, false)
      else
        let st := { st with queue := removeFromQueue existingInQueue.id st.queue }
        let st := { st with queue := queue ++ [newItem] }
        ({ st with logs := addLog .success ("Queued: " ++ title ++ " (" ++ language ++ ")") st.logs }, true)
    | none =>
      let st := { st with queue := queue ++ [newItem] }
      ({ st with logs := addLog .success ("Queued: " ++ title ++ " (" ++ language ++ ")") st.logs }, true)

/-- storage.ts incoming catalog entry shape for `mergeMapping`. -/
structure IncomingEntry : Type where
  title : Option String
  category : Option String
  listName : Option String
  difficulty : Option String
  sourceUrl : String
deriving DecidableEq, Repr

/-- The storage.ts `mergeMapping` loop body for one slug: merge the
incoming entry into the existing one (the empty object when the slug is
new), each field via JavaScript `incoming || existing`, and the sources
via `[...new Set([...existing, sourceUrl])]`. -/
def mergeOne (existing : MappingEntry) (entry : IncomingEntry) : MappingEntry :=
  { title := jsOr entry.title existing.title
    category := jsOr entry.category existing.category
    listName := jsOr entry.listName existing.listName
    difficulty := jsOr entry.difficulty existing.difficulty
    sources := some (dedupFirst ((existing.sources.getD []) ++ [entry.sourceUrl])) }

/-- storage.ts `mergeMapping` over the entries of a catalog-merge event. -/
def mergeMapping (newEntries : List (String × IncomingEntry))
    (entries : List (String × MappingEntry)) : List (String × MappingEntry) :=
  newEntries.foldl
    (fun acc p =>
      setAssoc p.1 (mergeOne ((lookupAssoc acc p.1).getD emptyMappingEntry) p.2) acc)
    entries

/-- Stand-in for the external Web Crypto SHA-256 digest wrapped by
normalize.ts `sha256`.  Every universally quantified theorem below is
parametric in the digest function; this stand-in only instantiates the
closed evaluations, where all that matters is that it is a function of
the concatenated input. -/
def sha256Stub : String → String := fun s => s

/-! ## Predicates and concrete instances used by the verification -/

/-- No two consecutive characters of the list both satisfy `p`. -/
def noTwoAdj (p : Char → Bool) : List Char → Bool
  | c1 :: c2 :: rest => !(p c1 && p c2) && noTwoAdj p (c2 :: rest)
  | _ => true

/-- The list contains no two consecutive underscores. -/
def noDoubleUnderscore (l : List Char) : Bool :=
  noTwoAdj (fun c => c == '_') l

/-- The head of the list, when present, does not satisfy `p`. -/
def firstNotP (p : Char → Bool) : List Char → Bool
  | [] => true
  | c :: _ => !(p c)

/-- A concrete item used to instantiate the eligibility theorem. -/
def itemC2 : QueueItem :=
  { id := "c2", slug := "two-sum", title := "Two Sum", category := none, listName := none,
    difficulty := none, language := "python", code := "x", meta := none, source := .dom,
    atMs := 0, retries := 3, lastAttempt := some 0 }

/-- The default settings with the FLAT organization mode selected. -/
def flatSettings : Settings := { DEFAULT_SETTINGS with organizationMode := .FLAT }

/-- A stored mapping entry with non-empty title and category. -/
def mapEntryA : MappingEntry :=
  { title := some "A", category := some "C", listName := none, difficulty := none,
    sources := some ["u0"] }

/-- An incoming catalog entry with a different non-empty title, an empty
category, and a non-empty list name. -/
def incomingB : IncomingEntry :=
  { title := some "B", category := none, listName := some "L", difficulty := none,
    sourceUrl := "u1" }

/-- The solved entry standing for a recent solve of slug `s` in language
`ab` with code `c`. -/
def entryC9 : SolvedEntry :=
  { title := "T", category := none, listName := none, difficulty := none,
    language := "ab", solvedAt := 0, sha256 := some (sha256Stub ("s" ++ "ab" ++ "c")) }

/-- A state whose solved-set holds `entryC9` under slug `s`. -/
def stC9 : SyncState :=
  { settings := DEFAULT_SETTINGS, token := none, mapping := [], solved := [("s", entryC9)],
    queue := [], lastSync := none, logs := [], isProcessing := false, attempted := [] }

/-- The solved entry standing for a recent solve of slug `ab` in language
`c` with code `d`. -/
def solvedAB : SolvedEntry :=
  { title := "T", category := none, listName := none, difficulty := none,
    language := "c", solvedAt := 0, sha256 := some (sha256Stub ("ab" ++ "c" ++ "d")) }

/-- A state whose solved-set holds `solvedAB` under slug `ab`. -/
def stC9cex : SyncState :=
  { settings := DEFAULT_SETTINGS, token := none, mapping := [], solved := [("ab", solvedAB)],
    queue := [], lastSync := none, logs := [], isProcessing := false, attempted := [] }

/-- A queued item for (two-sum, python) with code `codeA`. -/
def itemOld : QueueItem :=
  { id := "old", slug := "two-sum", title := "Two Sum", category := none, listName := none,
    difficulty := none, language := "python", code := "codeA", meta := none, source := .dom,
    atMs := 0, retries := 0, lastAttempt := none }

/-- A state whose queue holds `itemOld` and whose solved-set is empty. -/
def stDup : SyncState :=
  { settings := DEFAULT_SETTINGS, token := none, mapping := [], solved := [],
    queue := [itemOld], lastSync := none, logs := [], isProcessing := false, attempted := [] }

/-- A state with the single-flight flag set. -/
def stBusy : SyncState :=
  { settings := { DEFAULT_SETTINGS with repoFullName := "me/repo" }, token := some "tok",
    mapping := [], solved := [], queue := [itemOld], lastSync := none, logs := [],
    isProcessing := true, attempted := [] }

/-- A ready-looking state with a non-empty queue but no stored token. -/
def stC7 : SyncState :=
  { settings := { DEFAULT_SETTINGS with repoFullName := "me/repo" }, token := none,
    mapping := [], solved := [], queue := [itemOld], lastSync := none, logs := [],
    isProcessing := false, attempted := [] }

/-- A state with no token and an empty queue. -/
def stC7cex : SyncState :=
  { settings := DEFAULT_SETTINGS, token := none, mapping := [], solved := [],
    queue := [], lastSync := none, logs := [], isProcessing := false, attempted := [] }

/-- The always-failing commit oracle (an unreachable remote). -/
def failOracle : QueueItem → Except String Bool := fun _ => Except.ok false

/-- A fresh queue item awaiting its first attempt. -/
def itemR : QueueItem :=
  { id := "1", slug := "two-sum", title := "Two Sum", category := none, listName := none,
    difficulty := none, language := "python", code := "def f():pass", meta := none, source := .dom,
    atMs := 0, retries := 0, lastAttempt := none }

/-- A fully configured state whose queue holds the fresh item. -/
def stReady : SyncState :=
  { settings := { DEFAULT_SETTINGS with repoFullName := "me/repo" }, token := some "tok",
    mapping := [], solved := [], queue := [itemR], lastSync := none, logs := [],
    isProcessing := false, attempted := [] }

/-- A processing pass at time `100000 * k` (far beyond every backoff
delay, so every queued item is eligible). -/
def passAt (k : Nat) (st : SyncState) : SyncState :=
  processQueue sha256Stub failOracle (100000 * (k : Int)) st

/-- The state after five eligible failing passes. -/
def st5 : SyncState := passAt 5 (passAt 4 (passAt 3 (passAt 2 (passAt 1 stReady))))

/-- The state after a sixth eligible failing pass. -/
def st6 : SyncState := passAt 6 st5

/-- The accumulator with which the loop of a running pass starts: the
single-flight flag set and the batch-size log entry appended. -/
def startAcc (st : SyncState) : PassAcc :=
  { st := { st with
      isProcessing := true
      logs := addLog .info ("Processing " ++ toString st.queue.length ++ " queued items") st.logs }
    processed := 0
    errors := 0 }

/-! ## General helper lemmas -/

theorem lookupAssoc_mem {α : Type} {l : List (String × α)} {k : String} {v : α}
    (h : lookupAssoc l k = some v) : v ∈ l.map Prod.snd := by
  induction l with
  | nil => simp [lookupAssoc] at h
  | cons p rest ih =>
    rw [lookupAssoc] at h
    by_cases hk : p.1 = k
    · simp [hk] at h
      simp [← h]
    · simp [hk] at h
      simp [ih h]

theorem dedupFirst_mem (l : List String) (x : String) :
    x ∈ dedupFirst l ↔ x ∈ l := by
  have go : ∀ (l : List String) (acc : List String),
      x ∈ l.foldl (fun acc y => if y ∈ acc then acc else acc ++ [y]) acc ↔ x ∈ acc ∨ x ∈ l := by
    intro l
    induction l with
    | nil => intro acc; simp
    | cons y ys ih =>
      intro acc
      rw [List.foldl_cons, ih]
      by_cases hy : y ∈ acc
      · simp only [if_pos hy, List.mem_cons]
        constructor
        · intro h; tauto
        · rintro (h | h | h) <;> first | exact Or.inl h | exact Or.inl (h ▸ hy) | exact Or.inr h
      · simp only [if_neg hy, List.mem_append, List.mem_singleton, List.mem_cons]
        tauto
  rw [dedupFirst, go]
  simp

/-! ## Claim C2: retry eligibility and exponential backoff -/

/-- C2.  In a processing pass, an item with `retries = 0` or without a
recorded `lastAttempt` is always eligible; an item with `retries = k > 0`
and a recorded `lastAttempt` is attempted exactly when
`now - lastAttempt >= min (1000 * 2 ^ (k - 1)) 60000`; the delays for
`k = 1, 2, 3, 5` are 1000, 2000, 4000 and 16000 ms, the delay is
non-decreasing in the retry count and never exceeds the 60000 ms cap. -/
theorem backoff_eligibility :
    (∀ (item : QueueItem) (now : Int),
        item.retries = 0 ∨ item.lastAttempt = none → shouldAttempt item now = true)
    ∧ (∀ (item : QueueItem) (now t : Int),
        item.lastAttempt = some t → 0 < item.retries →
        (shouldAttempt item now = true ↔
          ((min (1000 * 2 ^ (item.retries - 1)) 60000 : Nat) : Int) ≤ now - t))
    ∧ getBackoffDelay 0 = 1000 ∧ getBackoffDelay 1 = 2000 ∧ getBackoffDelay 2 = 4000
    ∧ getBackoffDelay 4 = 16000
    ∧ (∀ j k : Nat, j ≤ k → getBackoffDelay j ≤ getBackoffDelay k)
    ∧ (∀ k : Nat, getBackoffDelay k ≤ 60000) := by
  refine ⟨?_, ?_, by decide, by decide, by decide, by decide, ?_, ?_⟩
  · intro item now h
    rcases hla : item.lastAttempt with _ | t
    · simp [shouldAttempt, hla]
    · rcases h with h | h
      · simp [shouldAttempt, hla, h]
      · rw [h] at hla; exact absurd hla (by simp)
  · intro item now t hla hr
    simp [shouldAttempt, hla, hr, getBackoffDelay, BASE_DELAY, MAX_DELAY]
  · intro j k h
    exact min_le_min (Nat.mul_le_mul_left _ (Nat.pow_le_pow_right (by norm_num) h)) le_rfl
  · intro k
    exact min_le_right _ _


/-- Witness for `backoff_eligibility`: an item on its third retry with a
last attempt at time 0 is eligible at time 5000 (delay 4000 ms). -/
theorem backoff_eligibility_witness :
    shouldAttempt itemC2 5000 = true ∧ getBackoffDelay 2 = 4000 :=
  ⟨(backoff_eligibility.2.1 itemC2 5000 0 rfl (by decide)).mpr (by decide),
   backoff_eligibility.2.2.2.2.1⟩

/-! ## Claim C6: FLAT organization mode path -/

theorem joinSep_three (sep a b c : String) :
    joinSep sep [a, b, c] = a ++ sep ++ (b ++ sep ++ c) := by
  simp [joinSep]

/-- C6.  With `organizationMode = FLAT`, `buildFilePath` returns
`baseDir ++ "/Problems/" ++ filename`, where the filename is the
sanitized title (falling back to the title-cased slug when the title is
empty) followed by a dot and the extension looked up for the language,
and is prefixed with the slug and a double underscore exactly when the
`filenameIncludeSlug` toggle is set. -/
theorem buildFilePath_flat (settings : Settings) (slug title language : String)
    (mappingEntry : Option MappingEntry) (difficulty : Option String)
    (h : settings.organizationMode = .FLAT) :
    buildFilePath settings slug title language mappingEntry difficulty =
      settings.baseDir ++ "/Problems/" ++
        (if settings.filenameIncludeSlug then
          slug ++ "__" ++ sanitize (jsOrStr title (slugToTitle slug)) ++ "." ++ getExtension language
        else sanitize (jsOrStr title (slugToTitle slug)) ++ "." ++ getExtension language) := by
  have hmid : ∀ f : String, ("/" : String) ++ ("Problems" ++ "/" ++ f) = "/Problems/" ++ f := by
    intro f
    rw [← String.append_assoc]
    have : ("/" : String) ++ ("Problems" ++ "/") = "/Problems/" := by decide
    rw [this]
  have hlit : ∀ a f : String, a ++ "/" ++ ("Problems" ++ "/" ++ f) = a ++ "/Problems/" ++ f := by
    intro a f
    rw [String.append_assoc a "/", hmid, ← String.append_assoc]
  simp only [buildFilePath, h]
  rw [show ∀ f : String, (settings.baseDir :: ["Problems"] ++ [f]) = [settings.baseDir, "Problems", f] from fun _ => rfl]
  rw [joinSep_three]
  exact hlit _ _


/-- Witness for `buildFilePath_flat`: the end-to-end example of the
specification, slug `two-sum`, title `Two Sum`, language `python`,
default toggles. -/
theorem buildFilePath_flat_witness :
    buildFilePath flatSettings "two-sum" "Two Sum" "python" none none =
      "NeetSync/Problems/Two_Sum.py" := by
  rw [buildFilePath_flat flatSettings "two-sum" "Two Sum" "python" none none rfl]
  decide

/-! ## Claim C5: catalog merge -/



/-- C5 counterexample.  The merge is not fill-if-absent: an incoming
non-empty title replaces a stored non-empty title, so the stored value is
not preserved. -/
theorem mergeMapping_overwrite_cex :
    mapEntryA.title = some "A" ∧ incomingB.title = some "B"
    ∧ (mergeOne mapEntryA incomingB).title = some "B"
    ∧ (mergeOne mapEntryA incomingB).title ≠ mapEntryA.title := by
  decide

/-- C5 (amended).  For every catalog-merge event the per-slug merge is
field-wise prefer-non-empty-incoming: each of title, category, listName
and difficulty takes the incoming value when that value is non-empty and
keeps the stored value otherwise (in particular an empty or missing
incoming field never erases a stored field, and an absent stored field is
filled from the incoming entry), and the sources of the result are the
union of the existing sources and the incoming source URL. -/
theorem mergeMapping_fieldwise :
    (∀ (entries : List (String × MappingEntry)) (slug : String) (e : IncomingEntry),
        mergeMapping [(slug, e)] entries =
          setAssoc slug (mergeOne ((lookupAssoc entries slug).getD emptyMappingEntry) e) entries)
    ∧ (∀ (existing : MappingEntry) (entry : IncomingEntry),
        (isTruthy entry.title = false → (mergeOne existing entry).title = existing.title)
        ∧ (isTruthy entry.title = true → (mergeOne existing entry).title = entry.title)
        ∧ (isTruthy entry.category = false → (mergeOne existing entry).category = existing.category)
        ∧ (isTruthy entry.category = true → (mergeOne existing entry).category = entry.category)
        ∧ (isTruthy entry.listName = false → (mergeOne existing entry).listName = existing.listName)
        ∧ (isTruthy entry.listName = true → (mergeOne existing entry).listName = entry.listName)
        ∧ (isTruthy entry.difficulty = false → (mergeOne existing entry).difficulty = existing.difficulty)
        ∧ (isTruthy entry.difficulty = true → (mergeOne existing entry).difficulty = entry.difficulty)
        ∧ (∀ x : String, x ∈ ((mergeOne existing entry).sources.getD []) ↔
            x ∈ existing.sources.getD [] ∨ x = entry.sourceUrl)) := by
  constructor
  · intro entries slug e
    rfl
  · intro existing entry
    refine ⟨?_, ?_, ?_, ?_, ?_, ?_, ?_, ?_, ?_⟩
    · intro h; simp [mergeOne, jsOr, h]
    · intro h; simp [mergeOne, jsOr, h]
    · intro h; simp [mergeOne, jsOr, h]
    · intro h; simp [mergeOne, jsOr, h]
    · intro h; simp [mergeOne, jsOr, h]
    · intro h; simp [mergeOne, jsOr, h]
    · intro h; simp [mergeOne, jsOr, h]
    · intro h; simp [mergeOne, jsOr, h]
    · intro x
      simp only [mergeOne, Option.getD_some, dedupFirst_mem, List.mem_append,
        List.mem_singleton]

/-- Witness for `mergeMapping_fieldwise` on concrete entries: the empty
incoming category keeps the stored one, the non-empty incoming list name
fills the absent stored one, and the incoming source URL lands in the
sources union. -/
theorem mergeMapping_fieldwise_witness :
    (mergeOne mapEntryA incomingB).category = mapEntryA.category
    ∧ (mergeOne mapEntryA incomingB).listName = incomingB.listName
    ∧ "u1" ∈ (mergeOne mapEntryA incomingB).sources.getD [] := by
  have h := mergeMapping_fieldwise.2 mapEntryA incomingB
  exact ⟨h.2.2.1 (by decide), h.2.2.2.2.2.1 (by decide),
    (h.2.2.2.2.2.2.2.2 "u1").mpr (Or.inr rfl)⟩

/-! ## Claim C9: fingerprint collisions -/

/-- C9 (amended).  The deduplication fingerprint is the digest of the
separator-less concatenation `slug ++ language ++ code`, which is not an
injective encoding of the triple; when two colliding submissions share
the slug, the later one is rejected as a duplicate of the recently solved
one even though its (language, code) pair is different.  Collisions with
a different slug are not treated as duplicates, because the solved-set
and queue lookups are keyed by slug (see the counterexample). -/
theorem fingerprint_collision :
    (("ab" : String) ++ "c" ++ "d" = "a" ++ "bc" ++ "d"
      ∧ (("ab", "c", "d") : String × String × String) ≠ ("a", "bc", "d"))
    ∧ (∀ (sha256 : String → String) (st : SyncState)
        (slug title lang code lang' code' : String) (e : SolvedEntry) (now : Int) (newId : String),
        lookupAssoc st.solved slug = some e →
        e.sha256 = some (sha256 (slug ++ lang ++ code)) →
        now - e.solvedAt < 60000 →
        lang ++ code = lang' ++ code' →
        (enqueueSubmission sha256 st slug title code' lang' none none none none .dom now newId).2 = false
        ∧ (enqueueSubmission sha256 st slug title code' lang' none none none none .dom now newId).1.queue
            = st.queue) := by
  refine ⟨⟨by decide, by decide⟩, ?_⟩
  intro sha256 st slug title lang code lang' code' e now newId hlook he htime hcat
  have hsame : slug ++ lang' ++ code' = slug ++ lang ++ code := by
    rw [String.append_assoc, String.append_assoc, hcat]
  simp [enqueueSubmission, hlook, hsame, he, htime]



/-- Witness for `fingerprint_collision`: submitting slug `s`, language
`a`, code `bc` right after solving slug `s`, language `ab`, code `c` is
rejected as a duplicate, although the two submissions differ. -/
theorem fingerprint_collision_witness :
    (enqueueSubmission sha256Stub stC9 "s" "T" "bc" "a" none none none none .dom 1000 "n").2 = false
    ∧ (enqueueSubmission sha256Stub stC9 "s" "T" "bc" "a" none none none none .dom 1000 "n").1.queue
        = stC9.queue :=
  fingerprint_collision.2 sha256Stub stC9 "s" "T" "ab" "c" "a" "bc" entryC9 1000 "n"
    rfl rfl (by decide) (by decide)



/-- C9 counterexample.  The triples (`ab`, `c`, `d`) and (`a`, `bc`, `d`)
are distinct with coinciding concatenations (so coinciding fingerprints),
yet the second submission is enqueued (returns true) instead of being
treated as a duplicate of the first: the dedup lookups are keyed by slug. -/
theorem fingerprint_collision_cex :
    sha256Stub ("a" ++ "bc" ++ "d") = sha256Stub ("ab" ++ "c" ++ "d")
    ∧ (("a", "bc", "d") : String × String × String) ≠ ("ab", "c", "d")
    ∧ (enqueueSubmission sha256Stub stC9cex "a" "T2" "d" "bc" none none none none .dom 1000 "n1").2
        = true := by
  decide

/-! ## Claim C1: enqueue deduplication and replacement -/



/-- C1 evaluation at the failing input.  Enqueuing (two-sum, python) with
different code while an item for the same pair is queued returns true but
leaves BOTH the old and the new item in the queue: `removeFromQueue`
rewrites storage without the stale item, but the final `saveQueue`
persists the locally captured pre-removal array with the new item pushed,
so the replacement is lost and the at-most-one-item-per-(slug, language)
invariant is violated. -/
theorem enqueue_replacement_lost :
    (enqueueSubmission sha256Stub stDup "two-sum" "Two Sum" "codeB" "python"
        none none none none .dom 1000 "new").2 = true
    ∧ (enqueueSubmission sha256Stub stDup "two-sum" "Two Sum" "codeB" "python"
        none none none none .dom 1000 "new").1.queue.map (fun q => (q.slug, q.language, q.id))
      = [("two-sum", "python", "old"), ("two-sum", "python", "new")] := by
  decide

/-! ## Claim C8: single-flight no-op -/

/-- C8.  While a pass is running (`isProcessing` set), a further call to
`processQueue` only appends an informational log entry: the resulting
state is the input state with that one log change, so the queue, the
solved-set, the last-sync timestamp and the attempt trace are untouched
and no follow-up work happens. -/
theorem singleflight_noop (sha256 : String → String) (commit : QueueItem → Except String Bool)
    (now : Int) (st : SyncState) (h : st.isProcessing = true) :
    processQueue sha256 commit now st =
      { st with logs := addLog .info "Queue processing already in progress" st.logs } := by
  simp [processQueue, h]


/-- Witness for `singleflight_noop` on a concrete busy state. -/
theorem singleflight_noop_witness :
    processQueue sha256Stub (fun _ => Except.ok true) 0 stBusy =
      { stBusy with logs := addLog .info "Queue processing already in progress" stBusy.logs } :=
  singleflight_noop sha256Stub (fun _ => Except.ok true) 0 stBusy rfl

/-! ## Claim C7: missing configuration -/

/-- C7 (amended).  When the credential token is absent (or empty) or the
repository name is empty, a processing pass leaves the queue, the
solved-set, the last-sync timestamp and the attempt trace unchanged and
attempts no commit; it logs the configuration warning exactly when the
queue is non-empty (an empty queue returns before the configuration check
without logging). -/
theorem missing_config_noop (sha256 : String → String) (commit : QueueItem → Except String Bool)
    (now : Int) (st : SyncState) (hproc : st.isProcessing = false)
    (hcfg : isTruthy st.token = false ∨ st.settings.repoFullName = "") :
    (processQueue sha256 commit now st).queue = st.queue
    ∧ (processQueue sha256 commit now st).solved = st.solved
    ∧ (processQueue sha256 commit now st).lastSync = st.lastSync
    ∧ (processQueue sha256 commit now st).attempted = st.attempted
    ∧ (processQueue sha256 commit now st).isProcessing = false
    ∧ (processQueue sha256 commit now st).logs =
        (if st.queue.isEmpty then st.logs
         else addLog .warn "GitHub not configured, skipping queue processing" st.logs) := by
  have hb : (!(isTruthy st.token) || st.settings.repoFullName == "") = true := by
    rcases hcfg with h | h <;> simp [h]
  by_cases hq : st.queue.isEmpty <;> simp [processQueue, hproc, hq, hb]


/-- Witness for `missing_config_noop` on `stC7`. -/
theorem missing_config_noop_witness :
    (processQueue sha256Stub (fun _ => Except.ok true) 0 stC7).queue = stC7.queue
    ∧ (processQueue sha256Stub (fun _ => Except.ok true) 0 stC7).logs =
        addLog .warn "GitHub not configured, skipping queue processing" stC7.logs := by
  have h := missing_config_noop sha256Stub (fun _ => Except.ok true) 0 stC7 rfl
    (Or.inl (by decide))
  refine ⟨h.1, ?_⟩
  rw [h.2.2.2.2.2]
  decide


/-- C7 counterexample.  With the token absent and the queue empty, the
pass returns without logging any warning (the empty-queue return precedes
the configuration check), so the claim that a warning is logged for every
queue state fails. -/
theorem missing_config_cex :
    stC7cex.token = none ∧ (processQueue sha256Stub (fun _ => Except.ok true) 0 stC7cex).logs = [] := by
  decide

/-! ## Lemmas about the processing pass -/

theorem mem_removeFromQueue_of_ne {x : QueueItem} {i : String} {l : List QueueItem}
    (hx : x ∈ l) (hne : x.id ≠ i) : x ∈ removeFromQueue i l := by
  refine List.mem_filter.mpr ⟨hx, ?_⟩
  simp [hne]

theorem removeFromQueue_ids_sublist (i : String) (l : List QueueItem) :
    List.Sublist ((removeFromQueue i l).map (fun q => q.id)) (l.map (fun q => q.id)) :=
  List.Sublist.map _ (List.filter_sublist l)

theorem updateQueueItem_ids (i : String) (upd : QueueItem → QueueItem)
    (hupd : ∀ q, (upd q).id = q.id) :
    ∀ l : List QueueItem,
      (updateQueueItem i upd l).map (fun q => q.id) = l.map (fun q => q.id) := by
  intro l
  induction l with
  | nil => rfl
  | cons q rest ih =>
    rw [updateQueueItem]
    by_cases h : q.id = i
    · simp [h, hupd]
    · simp only [if_neg h, List.map_cons, ih]

theorem mem_updateQueueItem_of_ne {x : QueueItem} {i : String} {upd : QueueItem → QueueItem} :
    ∀ {l : List QueueItem}, x ∈ l → x.id ≠ i → x ∈ updateQueueItem i upd l := by
  intro l
  induction l with
  | nil => intro h _; exact absurd h (by simp)
  | cons q rest ih =>
    intro hx hne
    rw [updateQueueItem]
    rcases List.mem_cons.mp hx with rfl | hx'
    · rw [if_neg (fun h => hne h)]
      exact List.mem_cons_self _ _
    · by_cases h : q.id = i
      · rw [if_pos h]
        exact List.mem_cons_of_mem _ hx'
      · rw [if_neg h]
        exact List.mem_cons_of_mem _ (ih hx' hne)

theorem mem_updateQueueItem_self {item : QueueItem} {upd : QueueItem → QueueItem} :
    ∀ {l : List QueueItem}, (l.map (fun q => q.id)).Nodup → item ∈ l →
      upd item ∈ updateQueueItem item.id upd l := by
  intro l
  induction l with
  | nil => intro _ h; exact absurd h (by simp)
  | cons q rest ih =>
    intro hnd hx
    rw [List.map_cons, List.nodup_cons] at hnd
    rw [updateQueueItem]
    rcases List.mem_cons.mp hx with rfl | hx'
    · rw [if_pos rfl]
      exact List.mem_cons_self _ _
    · by_cases h : q.id = item.id
      · exfalso
        exact hnd.1 (h ▸ List.mem_map_of_mem (fun q => q.id) hx')
      · rw [if_neg h]
        exact List.mem_cons_of_mem _ (ih hnd.2 hx')

/-- The queue after one loop step is the old queue, the old queue with
the item removed, or the old queue with the retry bookkeeping of the item
merged in. -/
theorem passStep_queue_cases (sha256 : String → String) (commit : QueueItem → Except String Bool)
    (now : Int) (mapping : List (String × MappingEntry)) (acc : PassAcc) (item : QueueItem) :
    (passStep sha256 commit now mapping acc item).st.queue = acc.st.queue
    ∨ (passStep sha256 commit now mapping acc item).st.queue = removeFromQueue item.id acc.st.queue
    ∨ (passStep sha256 commit now mapping acc item).st.queue =
        updateQueueItem item.id
          (fun q => { q with retries := item.retries + 1, lastAttempt := some now })
          acc.st.queue := by
  unfold passStep
  by_cases hatt : shouldAttempt item now
  · simp only [hatt, Bool.not_true, Bool.false_eq_true, if_false]
    cases commit item with
    | ok b =>
      cases b
      · by_cases hr : item.retries ≥ MAX_RETRIES <;> simp [hr]
      · simp
    | error e =>
      by_cases hr : item.retries ≥ MAX_RETRIES <;> simp [hr]
  · simp [hatt]

theorem passStep_mem_of_ne (sha256 : String → String) (commit : QueueItem → Except String Bool)
    (now : Int) (mapping : List (String × MappingEntry)) {acc : PassAcc} {item x : QueueItem}
    (hx : x ∈ acc.st.queue) (hne : item.id ≠ x.id) :
    x ∈ (passStep sha256 commit now mapping acc item).st.queue := by
  rcases passStep_queue_cases sha256 commit now mapping acc item with h | h | h <;> rw [h]
  · exact hx
  · exact mem_removeFromQueue_of_ne hx (fun hh => hne hh.symm)
  · exact mem_updateQueueItem_of_ne hx (fun hh => hne hh.symm)

theorem passStep_nodup (sha256 : String → String) (commit : QueueItem → Except String Bool)
    (now : Int) (mapping : List (String × MappingEntry)) {acc : PassAcc} {item : QueueItem}
    (hnd : (acc.st.queue.map (fun q => q.id)).Nodup) :
    ((passStep sha256 commit now mapping acc item).st.queue.map (fun q => q.id)).Nodup := by
  rcases passStep_queue_cases sha256 commit now mapping acc item with h | h | h <;> rw [h]
  · exact hnd
  · exact List.Nodup.sublist (removeFromQueue_ids_sublist _ _) hnd
  · rw [updateQueueItem_ids item.id
      (fun q => { q with retries := item.retries + 1, lastAttempt := some now })
      (fun q => rfl) acc.st.queue]
    exact hnd

theorem passStep_ids_subset (sha256 : String → String) (commit : QueueItem → Except String Bool)
    (now : Int) (mapping : List (String × MappingEntry)) {acc : PassAcc} {item : QueueItem}
    {x : String} (hx : x ∈ (passStep sha256 commit now mapping acc item).st.queue.map (fun q => q.id)) :
    x ∈ acc.st.queue.map (fun q => q.id) := by
  rcases passStep_queue_cases sha256 commit now mapping acc item with h | h | h <;> rw [h] at hx
  · exact hx
  · exact (removeFromQueue_ids_sublist _ _).subset hx
  · rw [updateQueueItem_ids item.id
      (fun q => { q with retries := item.retries + 1, lastAttempt := some now })
      (fun q => rfl) acc.st.queue] at hx
    exact hx

/-- The item update performed when an eligible attempt fails below the
retry ceiling. -/
theorem passStep_failure_mem (sha256 : String → String) (commit : QueueItem → Except String Bool)
    (now : Int) (mapping : List (String × MappingEntry)) {acc : PassAcc} {item : QueueItem}
    (hatt : shouldAttempt item now = true) (hfail : commit item ≠ Except.ok true)
    (hret : item.retries < MAX_RETRIES)
    (hnd : (acc.st.queue.map (fun q => q.id)).Nodup) (hm : item ∈ acc.st.queue) :
    { item with retries := item.retries + 1, lastAttempt := some now }
      ∈ (passStep sha256 commit now mapping acc item).st.queue := by
  unfold passStep
  simp only [hatt, Bool.not_true, Bool.false_eq_true, if_false]
  cases hc : commit item with
  | ok b =>
    cases b
    · rw [if_neg (by omega)]
      exact mem_updateQueueItem_self hnd hm
    · exact absurd hc hfail
  | error e =>
    rw [if_neg (by omega)]
    exact mem_updateQueueItem_self hnd hm

theorem passLoop_append (sha256 : String → String) (commit : QueueItem → Except String Bool)
    (now : Int) (mapping : List (String × MappingEntry)) (a b : List QueueItem) (acc : PassAcc) :
    passLoop sha256 commit now mapping (a ++ b) acc =
      passLoop sha256 commit now mapping b (passLoop sha256 commit now mapping a acc) := by
  induction a generalizing acc with
  | nil => rfl
  | cons i rest ih => rw [List.cons_append, passLoop, passLoop, ih]

theorem passLoop_mem_of_ne (sha256 : String → String) (commit : QueueItem → Except String Bool)
    (now : Int) (mapping : List (String × MappingEntry)) {x : QueueItem} :
    ∀ (items : List QueueItem) (acc : PassAcc), x ∈ acc.st.queue →
      (∀ i ∈ items, i.id ≠ x.id) →
      x ∈ (passLoop sha256 commit now mapping items acc).st.queue := by
  intro items
  induction items with
  | nil => intro acc hx _; exact hx
  | cons i rest ih =>
    intro acc hx hne
    rw [passLoop]
    exact ih _ (passStep_mem_of_ne sha256 commit now mapping hx (hne i (by simp)))
      (fun j hj => hne j (by simp [hj]))

theorem passLoop_nodup (sha256 : String → String) (commit : QueueItem → Except String Bool)
    (now : Int) (mapping : List (String × MappingEntry)) :
    ∀ (items : List QueueItem) (acc : PassAcc),
      (acc.st.queue.map (fun q => q.id)).Nodup →
      ((passLoop sha256 commit now mapping items acc).st.queue.map (fun q => q.id)).Nodup := by
  intro items
  induction items with
  | nil => intro acc h; exact h
  | cons i rest ih =>
    intro acc h
    rw [passLoop]
    exact ih _ (passStep_nodup sha256 commit now mapping h)

theorem passLoop_ids_subset (sha256 : String → String) (commit : QueueItem → Except String Bool)
    (now : Int) (mapping : List (String × MappingEntry)) :
    ∀ (items : List QueueItem) (acc : PassAcc) (x : String),
      x ∈ (passLoop sha256 commit now mapping items acc).st.queue.map (fun q => q.id) →
      x ∈ acc.st.queue.map (fun q => q.id) := by
  intro items
  induction items with
  | nil => intro acc x h; exact h
  | cons i rest ih =>
    intro acc x h
    rw [passLoop] at h
    exact passStep_ids_subset sha256 commit now mapping (ih _ x h)


/-- Unfolding of a pass that actually runs: single-flight clear, queue
non-empty, configuration present. -/
theorem processQueue_run (sha256 : String → String) (commit : QueueItem → Except String Bool)
    (now : Int) (st : SyncState)
    (hproc : st.isProcessing = false) (hq : st.queue ≠ [])
    (htok : isTruthy st.token = true) (hrepo : st.settings.repoFullName ≠ "") :
    (processQueue sha256 commit now st).queue =
      (passLoop sha256 commit now st.mapping st.queue (startAcc st)).st.queue
    ∧ (processQueue sha256 commit now st).isProcessing = false := by
  have hq' : st.queue.isEmpty = false := by
    cases h : st.queue with
    | nil => exact absurd h hq
    | cons a l => rfl
  have hb : (!(isTruthy st.token) || st.settings.repoFullName == "") = false := by
    simp [htok, hrepo]
  simp only [processQueue, startAcc, hproc, hq', hb, Bool.false_eq_true, if_false]
  constructor
  · split <;> rfl
  · trivial

theorem processQueue_ids_subset (sha256 : String → String)
    (commit : QueueItem → Except String Bool) (now : Int) (st : SyncState) (x : String)
    (hx : x ∈ (processQueue sha256 commit now st).queue.map (fun q => q.id)) :
    x ∈ st.queue.map (fun q => q.id) := by
  by_cases h1 : st.isProcessing
  · simpa [processQueue, h1] using hx
  · have h1' : st.isProcessing = false := by simpa using h1
    by_cases h2 : st.queue.isEmpty
    · simpa [processQueue, h1', h2] using hx
    · have h2' : st.queue.isEmpty = false := by simpa using h2
      by_cases h3 : (!(isTruthy st.token) || st.settings.repoFullName == "") = true
      · simpa [processQueue, h1', h2', h3] using hx
      · have h3' : (!(isTruthy st.token) || st.settings.repoFullName == "") = false := by
          simpa using h3
        rw [processQueue] at hx
        simp only [h1', h2', h3', Bool.false_eq_true, if_false] at hx
        rw [show ∀ a : SyncState, ({ a with isProcessing := false } : SyncState).queue = a.queue
          from fun _ => rfl] at hx
        split at hx <;>
          exact passLoop_ids_subset sha256 commit now st.mapping st.queue _ x hx

/-! ## Claims C3 and C4: retry ceiling and retry bookkeeping -/







/-- C3 counterexample.  After five consecutive eligible failing commit
attempts (the attempt trace shows all five were made), the item is still
in the queue with `retries = 5`, so it is not removed after five
failures as claimed. -/
theorem retry_ceiling_cex :
    st5.queue.map (fun q => (q.id, q.retries)) = [("1", 5)]
    ∧ st5.attempted = ["1", "1", "1", "1", "1"] := by
  decide

/-- C3 (amended).  A queue item is removed after its sixth consecutive
eligible failing commit attempt: the failure handler increments `retries`
while `retries < 5` and removes the item on a failure with
`retries >= 5`, so the initial attempt plus five retries all fail before
the removal.  Once removed it is never attempted again without a new
submission event: a processing pass never adds ids to the queue. -/
theorem retry_ceiling_amended :
    st6.queue = [] ∧ st6.attempted = ["1", "1", "1", "1", "1", "1"]
    ∧ (∀ (sha256 : String → String) (commit : QueueItem → Except String Bool)
        (now : Int) (st : SyncState) (x : String),
        x ∈ (processQueue sha256 commit now st).queue.map (fun q => q.id) →
        x ∈ st.queue.map (fun q => q.id)) := by
  refine ⟨by decide, by decide, ?_⟩
  intro sha256 commit now st x hx
  exact processQueue_ids_subset sha256 commit now st x hx

/-- Witness for `retry_ceiling_amended`: the quantified conjunct applied
at a concrete state and id. -/
theorem retry_ceiling_amended_witness :
    "1" ∈ stReady.queue.map (fun q => q.id) :=
  retry_ceiling_amended.2.2 sha256Stub failOracle (100000 * (1 : Int)) stReady "1" (by decide)

/-- C4.  When an eligible commit attempt for a queued item fails in any
way (the commit reports failure or throws) and the item is below the
retry ceiling, the pass leaves the item in the queue with `retries`
incremented by exactly one and `lastAttempt` set to the attempt time;
the pass itself is a total function that completes and clears the
single-flight flag, so the failure does not propagate to the trigger
source. -/
theorem retry_on_failure (sha256 : String → String) (commit : QueueItem → Except String Bool)
    (now : Int) (st : SyncState) (item : QueueItem)
    (hproc : st.isProcessing = false)
    (htok : isTruthy st.token = true)
    (hrepo : st.settings.repoFullName ≠ "")
    (hnodup : (st.queue.map (fun q => q.id)).Nodup)
    (hmem : item ∈ st.queue)
    (helig : shouldAttempt item now = true)
    (hfail : commit item ≠ Except.ok true)
    (hret : item.retries < MAX_RETRIES) :
    { item with retries := item.retries + 1, lastAttempt := some now }
      ∈ (processQueue sha256 commit now st).queue
    ∧ (processQueue sha256 commit now st).isProcessing = false := by
  have hq : st.queue ≠ [] := by
    intro h
    rw [h] at hmem
    exact absurd hmem (by simp)
  obtain ⟨hqueue, hproc'⟩ := processQueue_run sha256 commit now st hproc hq htok hrepo
  refine ⟨?_, hproc'⟩
  rw [hqueue]
  obtain ⟨pre, post, hsplit⟩ := List.append_of_mem hmem
  have hnodup' : ((pre ++ item :: post).map (fun q => q.id)).Nodup := by
    rw [← hsplit]; exact hnodup
  have hmap := hnodup'
  rw [List.map_append, List.map_cons, List.nodup_append] at hmap
  have hpre : ∀ i ∈ pre, i.id ≠ item.id := by
    intro i hi heq
    exact hmap.2.2 (List.mem_map_of_mem (fun q => q.id) hi) (by simp [heq])
  have hpost : ∀ i ∈ post, i.id ≠ item.id := by
    intro i hi heq
    exact (List.nodup_cons.mp hmap.2.1).1 (heq ▸ List.mem_map_of_mem (fun q => q.id) hi)
  rw [hsplit, passLoop_append, passLoop]
  have hnodup0 : ((startAcc st).st.queue.map (fun q => q.id)).Nodup := hnodup
  have hmem0 : item ∈ (startAcc st).st.queue := hmem
  have hP_nodup := passLoop_nodup sha256 commit now st.mapping pre (startAcc st) hnodup0
  have hP_mem := passLoop_mem_of_ne sha256 commit now st.mapping pre (startAcc st) hmem0 hpre
  have hstep := passStep_failure_mem sha256 commit now st.mapping helig hfail hret hP_nodup hP_mem
  exact passLoop_mem_of_ne sha256 commit now st.mapping post _ hstep
    (fun i hi => hpost i hi)

/-- Witness for `retry_on_failure`: a failing first attempt on the fresh
item leaves it queued with one retry and the attempt time recorded. -/
theorem retry_on_failure_witness :
    { itemR with retries := itemR.retries + 1, lastAttempt := some 0 }
      ∈ (processQueue sha256Stub failOracle 0 stReady).queue :=
  (retry_on_failure sha256Stub failOracle 0 stReady itemR rfl (by decide) (by decide)
    (by decide) (by decide) (by decide) (by simp [failOracle]) (by decide)).1

/-! ## Claim C10: sanitization guarantees -/

theorem noTwoAdj_cons_of (p : Char → Bool) (c : Char) (l : List Char)
    (h1 : noTwoAdj p l = true) (h2 : p c = false ∨ firstNotP p l = true) :
    noTwoAdj p (c :: l) = true := by
  cases l with
  | nil => rfl
  | cons d rest =>
    rw [noTwoAdj]
    rcases h2 with h2 | h2
    · simp [h2, h1]
    · rw [firstNotP] at h2
      simp only [Bool.not_eq_true'] at h2
      simp [h2, h1]

theorem noTwoAdj_tail (p : Char → Bool) (c : Char) (l : List Char)
    (h : noTwoAdj p (c :: l) = true) : noTwoAdj p l = true := by
  cases l with
  | nil => rfl
  | cons d rest =>
    rw [noTwoAdj] at h
    exact (Bool.and_eq_true_iff.mp h).2

theorem noTwoAdj_head (p : Char → Bool) (c d : Char) (l : List Char)
    (h : noTwoAdj p (c :: d :: l) = true) : p c = false ∨ p d = false := by
  rw [noTwoAdj] at h
  have h1 : (!(p c && p d)) = true := (Bool.and_eq_true_iff.mp h).1
  cases hpc : p c with
  | false => exact Or.inl rfl
  | true =>
    cases hpd : p d with
    | false => exact Or.inr rfl
    | true => rw [hpc, hpd] at h1; exact absurd h1 (by decide)

theorem replaceRuns_noTwoAdj (p : Char → Bool) (r : Char) :
    ∀ l : List Char,
      (∀ b : Bool, noTwoAdj p (replaceRuns p r b l) = true)
      ∧ firstNotP p (replaceRuns p r true l) = true := by
  intro l
  induction l with
  | nil => exact ⟨fun b => rfl, rfl⟩
  | cons c cs ih =>
    constructor
    · intro b
      cases hc : p c with
      | true =>
        cases b with
        | true =>
          rw [replaceRuns]
          simp only [hc, if_true]
          exact ih.1 true
        | false =>
          rw [replaceRuns]
          simp only [hc, if_true, Bool.false_eq_true, if_false]
          exact noTwoAdj_cons_of p r _ (ih.1 true) (Or.inr ih.2)
      | false =>
        rw [replaceRuns]
        simp only [hc, Bool.false_eq_true, if_false]
        exact noTwoAdj_cons_of p c _ (ih.1 false) (Or.inl hc)
    · cases hc : p c with
      | true =>
        rw [replaceRuns]
        simp only [hc, if_true]
        exact ih.2
      | false =>
        rw [replaceRuns]
        simp only [hc, Bool.false_eq_true, if_false]
        show (!(p c)) = true
        simp [hc]

theorem replaceRuns_mem (p : Char → Bool) (r : Char) :
    ∀ (l : List Char) (b : Bool) (c : Char), c ∈ replaceRuns p r b l →
      c = r ∨ (c ∈ l ∧ p c = false) := by
  intro l
  induction l with
  | nil => intro b c hc; rw [replaceRuns] at hc; exact absurd hc (by simp)
  | cons d rest ih =>
    intro b c hc
    rw [replaceRuns] at hc
    cases hd : p d with
    | true =>
      simp only [hd, if_true] at hc
      cases b with
      | true =>
        rcases ih true c hc with h | h
        · exact Or.inl h
        · exact Or.inr ⟨List.mem_cons_of_mem _ h.1, h.2⟩
      | false =>
        simp only [Bool.false_eq_true, if_false] at hc
        rcases List.mem_cons.mp hc with rfl | hc'
        · exact Or.inl rfl
        · rcases ih true c hc' with h | h
          · exact Or.inl h
          · exact Or.inr ⟨List.mem_cons_of_mem _ h.1, h.2⟩
    | false =>
      simp only [hd, Bool.false_eq_true, if_false] at hc
      rcases List.mem_cons.mp hc with rfl | hc'
      · exact Or.inr ⟨List.mem_cons_self _ _, hd⟩
      · rcases ih false c hc' with h | h
        · exact Or.inl h
        · exact Or.inr ⟨List.mem_cons_of_mem _ h.1, h.2⟩

theorem noTwoAdj_dropLast (p : Char → Bool) :
    ∀ l : List Char, noTwoAdj p l = true → noTwoAdj p l.dropLast = true := by
  intro l
  induction l with
  | nil => intro _; rfl
  | cons c cs ih =>
    intro h
    cases cs with
    | nil => rfl
    | cons d rest =>
      have hdl : (c :: d :: rest).dropLast = c :: (d :: rest).dropLast := rfl
      rw [hdl]
      refine noTwoAdj_cons_of p c _ (ih (noTwoAdj_tail p c _ h)) ?_
      rcases noTwoAdj_head p c d rest h with h' | h'
      · exact Or.inl h'
      · cases rest with
        | nil => exact Or.inr rfl
        | cons e res =>
          refine Or.inr ?_
          have : (d :: e :: res).dropLast = d :: (e :: res).dropLast := rfl
          rw [this, firstNotP]
          simp [h']

theorem noTwoAdj_take (p : Char → Bool) :
    ∀ (l : List Char) (n : Nat), noTwoAdj p l = true → noTwoAdj p (l.take n) = true := by
  intro l
  induction l with
  | nil => intro n _; simp [noTwoAdj]
  | cons c cs ih =>
    intro n h
    cases n with
    | zero => rfl
    | succ m =>
      rw [List.take_succ_cons]
      refine noTwoAdj_cons_of p c _ (ih m (noTwoAdj_tail p c _ h)) ?_
      cases cs with
      | nil => simp [firstNotP]
      | cons d rest =>
        rcases noTwoAdj_head p c d rest h with h' | h'
        · exact Or.inl h'
        · cases m with
          | zero => exact Or.inr rfl
          | succ m' =>
            refine Or.inr ?_
            rw [List.take_succ_cons, firstNotP]
            simp [h']

theorem noTwoAdj_trimEdge (p : Char → Bool) (l : List Char)
    (h : noTwoAdj p l = true) : noTwoAdj p (trimEdgeUnderscores l) = true := by
  have h1 : noTwoAdj p (dropLeadUnderscore l) = true := by
    cases l with
    | nil => exact h
    | cons c rest =>
      rw [dropLeadUnderscore]
      by_cases hc : c = '_'
      · rw [if_pos hc]
        exact noTwoAdj_tail p c rest h
      · rw [if_neg hc]
        exact h
  show noTwoAdj p (if (dropLeadUnderscore l).getLast? = some '_'
      then (dropLeadUnderscore l).dropLast else dropLeadUnderscore l) = true
  split
  · exact noTwoAdj_dropLast p _ h1
  · exact h1

theorem trimEdgeUnderscores_subset {c : Char} {l : List Char}
    (hc : c ∈ trimEdgeUnderscores l) : c ∈ l := by
  have hsub : ∀ d : Char, d ∈ dropLeadUnderscore l → d ∈ l := by
    intro d hd
    cases l with
    | nil => exact hd
    | cons a rest =>
      rw [dropLeadUnderscore] at hd
      by_cases ha : a = '_'
      · rw [if_pos ha] at hd
        exact List.mem_cons_of_mem _ hd
      · rwa [if_neg ha] at hd
  have hc' : c ∈ (if (dropLeadUnderscore l).getLast? = some '_'
      then (dropLeadUnderscore l).dropLast else dropLeadUnderscore l) := hc
  split at hc'
  · exact hsub c ((List.dropLast_sublist _).subset hc')
  · exact hsub c hc'

theorem sanitize_chars {c : Char} {s : String} (hc : c ∈ (sanitize s).data) :
    isJsSpace c = false ∧ badChars.contains c = false := by
  rw [sanitize] at hc
  simp only at hc
  have h4 : c ∈ trimEdgeUnderscores
      (replaceRuns (fun c => c == '_') '_' false
        (replaceRuns isJsSpace '_' false (s.data.filter (fun c => !(badChars.contains c))))) :=
    (List.take_sublist _ _).subset hc
  have h3 := trimEdgeUnderscores_subset h4
  have hstep1 : ∀ d : Char, d ∈ s.data.filter (fun c => !(badChars.contains c)) →
      badChars.contains d = false := by
    intro d hd
    have := (List.mem_filter.mp hd).2
    simpa using this
  have hstep2 : ∀ d : Char,
      d ∈ replaceRuns isJsSpace '_' false (s.data.filter (fun c => !(badChars.contains c))) →
      isJsSpace d = false ∧ badChars.contains d = false := by
    intro d hd
    rcases replaceRuns_mem isJsSpace '_' _ _ _ hd with rfl | ⟨hmem, hsp⟩
    · exact ⟨by decide, by decide⟩
    · exact ⟨hsp, hstep1 d hmem⟩
  rcases replaceRuns_mem (fun c => c == '_') '_' _ _ _ h3 with rfl | ⟨hmem, _⟩
  · exact ⟨by decide, by decide⟩
  · exact hstep2 c hmem

theorem sanitize_props (s : String) :
    (sanitize s).length ≤ 100
    ∧ (sanitize s).data.all (fun c => !(isJsSpace c) && !(badChars.contains c)) = true
    ∧ noDoubleUnderscore (sanitize s).data = true := by
  refine ⟨?_, ?_, ?_⟩
  · rw [sanitize]
    exact List.length_take_le _ _
  · rw [List.all_eq_true]
    intro c hc
    rcases sanitize_chars hc with ⟨h1, h2⟩
    simp only [Bool.and_eq_true, Bool.not_eq_true']
    exact ⟨h1, h2⟩
  · rw [sanitize, noDoubleUnderscore]
    simp only
    refine noTwoAdj_take _ _ 100 (noTwoAdj_trimEdge _ _ ?_)
    exact (replaceRuns_noTwoAdj (fun c => c == '_') '_' _).1 false

theorem getExtension_bounds (language : String) :
    (getExtension language).length ≤ 5
    ∧ (getExtension language).data.all (fun c => !(badChars.contains c)) = true := by
  rw [getExtension]
  cases h : lookupAssoc LANGUAGE_EXTENSIONS (jsTrim (lowerStr language)) with
  | none => exact ⟨by decide, by decide⟩
  | some v =>
    have hv : v ∈ LANGUAGE_EXTENSIONS.map Prod.snd := lookupAssoc_mem h
    have hall : ∀ w ∈ LANGUAGE_EXTENSIONS.map Prod.snd,
        w.length ≤ 5 ∧ w.data.all (fun c => !(badChars.contains c)) = true := by decide
    simpa using hall v hv

/-- C10.  For every input, `sanitize` returns a string of length at most
100 with no whitespace, none of the characters removed by the invalid
class, and no two consecutive underscores; consequently the category and
list-name path segments and the title-derived filename (sanitized title
plus dot plus looked-up extension) that `buildFilePath` assembles are
bounded in length and free of those path-hostile characters. -/
theorem sanitize_bounded_and_clean :
    (∀ s : String, (sanitize s).length ≤ 100
      ∧ (sanitize s).data.all (fun c => !(isJsSpace c) && !(badChars.contains c)) = true
      ∧ noDoubleUnderscore (sanitize s).data = true)
    ∧ (∀ category : String, (normalizeCategory category).length ≤ 100
      ∧ (normalizeCategory category).data.all (fun c => !(isJsSpace c) && !(badChars.contains c)) = true
      ∧ noDoubleUnderscore (normalizeCategory category).data = true)
    ∧ (∀ listName : String, (normalizeListName listName).length ≤ 100
      ∧ (normalizeListName listName).data.all (fun c => !(isJsSpace c) && !(badChars.contains c)) = true
      ∧ noDoubleUnderscore (normalizeListName listName).data = true)
    ∧ (∀ slug title language : String,
        (sanitize (jsOrStr title (slugToTitle slug)) ++ "." ++ getExtension language).length ≤ 106
        ∧ (sanitize (jsOrStr title (slugToTitle slug)) ++ "." ++ getExtension language).data.all
            (fun c => !(badChars.contains c)) = true) := by
  refine ⟨sanitize_props, fun category => sanitize_props _, fun listName => sanitize_props _, ?_⟩
  intro slug title language
  constructor
  · rw [String.length_append, String.length_append]
    have h1 := (sanitize_props (jsOrStr title (slugToTitle slug))).1
    have h2 := (getExtension_bounds language).1
    have hdot : ("." : String).length = 1 := rfl
    omega
  · have h1 : (sanitize (jsOrStr title (slugToTitle slug))).data.all
        (fun c => !(badChars.contains c)) = true := by
      rw [List.all_eq_true]
      intro c hc
      simp only [Bool.not_eq_true']
      exact (sanitize_chars hc).2
    have h2 := (getExtension_bounds language).2
    rw [String.data_append, String.data_append, List.all_append, List.all_append, h1, h2]
    decide

end NeetSync
